import Mathlib

/-!
Verification of the fixed-horizon single-leg backtest.

Shallow embedding of the repository's three Python modules:
`backtest.py`, `streamlit_app.py` and `format_results.py`.

Modelling choices:
* a calendar date is an `Int` (days since an arbitrary epoch; the source
  only compares dates and adds day offsets);
* a closing price / money amount is a rational `ℚ` (the source uses
  floats; no rounding happens in the core, so exact arithmetic is the
  faithful reading);
* a price dataframe (`DatetimeIndex` + `Close` column) is a `List Bar`;
* `yf.download` is a parameter `download : String → FetchOutcome`, where
  an outcome is either a raised exception (`fetchError`) or a dataframe;
* the per-row fetch pipeline seen by the orchestrator is a parameter
  `fetch : String → Int → Int → Option (List Bar)`.
-/

/-- One row of a price dataframe: the date index entry and the `Close` value. -/
structure Bar where
  date : Int
  close : ℚ
  deriving DecidableEq

/-- The boolean test `hist_idx >= signal_dt` applied to one bar. -/
def onOrAfter (signal_dt : Int) (b : Bar) : Bool := decide (signal_dt ≤ b.date)

/-- The boolean test used by `hist_idx.get_loc(entry_date)`: label equality. -/
def sameDate (d : Int) (b : Bar) : Bool := decide (b.date = d)

/-- Embedding of `find_entry_exit(hist, signal_dt, days)` from `backtest.py`
(lines 41–54; `streamlit_app.py` lines 45–56 is identical).
`candidate = hist_idx[hist_idx >= signal_dt]`; if empty return four `None`s;
otherwise `entry_date = candidate[0]`, `entry_pos = hist_idx.get_loc(entry_date)`
(first position carrying that date label), `exit_pos = entry_pos + days`; if
`exit_pos >= len(hist_idx)` return the entry with no exit, else also return the
bar at `exit_pos`. -/
def find_entry_exit (hist : List Bar) (signal_dt : Int) (days : Nat) :
    Option Int × Option ℚ × Option Int × Option ℚ :=
  match hist.filter (onOrAfter signal_dt) with
  | [] => (none, none, none, none)
  | e :: _ =>
      let entry_pos := hist.findIdx (sameDate e.date)
      let exit_pos := entry_pos + days
      if h : exit_pos < hist.length then
        let x := hist.get ⟨exit_pos, h⟩
        (some e.date, some e.close, some x.date, some x.close)
      else
        (some e.date, some e.close, none, none)

/-- One parsed input row: trimmed symbol string and parsed signal date. -/
structure SignalRow where
  symbol : String
  signal_date : Int
  deriving DecidableEq

/-- One output row of `run_backtest` (the dict appended to `results`). -/
structure TradeResult where
  symbol : String
  signal_date : Int
  entry_date : Option Int
  entry_price : Option ℚ
  exit_date : Option Int
  exit_price : Option ℚ
  return_pct : Option ℚ
  profit : Option ℚ
  investment : ℚ
  note : String
  deriving DecidableEq

/-- Embedding of one iteration of the `run_backtest` loop (`backtest.py`
lines 66–118; `run_backtest_df` in `streamlit_app.py` lines 91–110): the
fetch window is `start = sig_dt - timedelta(days=1)`,
`end = sig_dt + timedelta(days=days + 3)`; a missing series yields the
"no price data" row, otherwise the row is built from the `find_entry_exit`
outcome, with `ret = (exit_price - entry_price) / entry_price` and
`profit = ret * investment` when fully resolved.  The fetch pipeline
(`get_prices` over the network) is abstracted as the `fetch` parameter. -/
def processRow (fetch : String → Int → Int → Option (List Bar))
    (investment : ℚ) (days : Nat) (row : SignalRow) : TradeResult :=
  match fetch row.symbol (row.signal_date - 1)
      (row.signal_date + ((days : Int) + 3)) with
  | none =>
      { symbol := row.symbol, signal_date := row.signal_date,
        entry_date := none, entry_price := none, exit_date := none,
        exit_price := none, return_pct := none, profit := none,
        investment := investment, note := "no price data" }
  | some hist =>
      match find_entry_exit hist row.signal_date days with
      | (ed, ep, xd, xp) =>
          let outcome : Option ℚ × Option ℚ × String :=
            match ep, xp with
            | none, _ => (none, none, "no entry")
            | some _, none => (none, none, "no exit (insufficient data)")
            | some epv, some xpv =>
                let r := (xpv - epv) / epv
                (some r, some (r * investment), "")
          { symbol := row.symbol, signal_date := row.signal_date,
            entry_date := ed, entry_price := ep, exit_date := xd,
            exit_price := xp, return_pct := outcome.1,
            profit := outcome.2.1, investment := investment,
            note := outcome.2.2 }

/-- ASCII lowercasing of a column name, `c.lower()` in the source
(written over the character list so that it evaluates by kernel reduction). -/
def lowerStr (s : String) : String := ⟨s.data.map Char.toLower⟩

/-- Embedding of `cols = {c.lower(): c for c in df.columns}` followed by
`cols[name]`: the value is the last column whose lowercasing equals `name`
(later dict entries overwrite earlier ones), `None` when absent. -/
def lookupCol (columns : List String) (name : String) : Option String :=
  (columns.filter (fun c => lowerStr c == name)).getLast?

/-- Embedding of `detect_columns` (`backtest.py` lines 8–22,
`streamlit_app.py` lines 30–42): the symbol column is the first of
`symbol`, `stock`, `ticker` present case-insensitively; the date column is
the first of `date`, `signal_date`. -/
def detect_columns (columns : List String) : Option String × Option String :=
  (["symbol", "stock", "ticker"].findSome? (lookupCol columns),
   ["date", "signal_date"].findSome? (lookupCol columns))

/-- Embedding of `run_backtest` (`backtest.py` lines 57–121): detect the
two columns — raising `ValueError` before any row is processed when either
is missing — then map the per-row body over the signal rows in order. -/
def run_backtest (fetch : String → Int → Int → Option (List Bar))
    (columns : List String) (sigs : List SignalRow)
    (investment : ℚ) (days : Nat) : Except String (List TradeResult) :=
  match detect_columns columns with
  | (some _, some _) => .ok (sigs.map (processRow fetch investment days))
  | _ => .error "Could not detect symbol and date columns. Expected columns like \"symbol\" and \"date\""

/-- State (a) of the §3 table: no price data found. -/
def noPriceDataState (r : TradeResult) : Prop :=
  r.entry_date = none ∧ r.entry_price = none ∧ r.exit_date = none ∧
  r.exit_price = none ∧ r.return_pct = none ∧ r.profit = none ∧
  r.note = "no price data"

/-- State (b): price data found but no entry bar on/after the signal date. -/
def noEntryState (r : TradeResult) : Prop :=
  r.entry_date = none ∧ r.entry_price = none ∧ r.exit_date = none ∧
  r.exit_price = none ∧ r.note = "no entry"

/-- State (c): entry found but the holding period runs past available history. -/
def noExitState (r : TradeResult) : Prop :=
  r.entry_date.isSome = true ∧ r.entry_price.isSome = true ∧
  r.exit_date = none ∧ r.exit_price = none ∧ r.return_pct = none ∧
  r.profit = none ∧ r.note = "no exit (insufficient data)"

/-- State (d): fully resolved trade. -/
def resolvedState (r : TradeResult) : Prop :=
  r.entry_date.isSome = true ∧ r.entry_price.isSome = true ∧
  r.exit_date.isSome = true ∧ r.exit_price.isSome = true ∧
  r.return_pct.isSome = true ∧ r.profit.isSome = true ∧ r.note = ""

/-- A fetch pipeline that never finds data (concrete witness fixture). -/
def fetchNone : String → Int → Int → Option (List Bar) := fun _ _ _ => none

/-- A fetch pipeline returning a fixed two-bar series (witness fixture). -/
def fetchTwoBars : String → Int → Int → Option (List Bar) :=
  fun _ _ _ => some [⟨0, 100⟩, ⟨1, 110⟩]

/-- A fetch pipeline that only reacts to the start bound (witness fixture). -/
def fetchStartSensitive : String → Int → Int → Option (List Bar) :=
  fun _ st _ => if st = -1 then none else some [⟨0, 100⟩]

/-- A concrete signal row used by witnesses. -/
def rowA : SignalRow := ⟨"ABC", 0⟩

/-- Outcome of one `yf.download` call: a raised exception or a dataframe. -/
inductive FetchOutcome where
  | fetchError : FetchOutcome
  | data : List Bar → FetchOutcome
  deriving DecidableEq

/-- The ascending date order used by `df.sort_index()`. -/
def dateLE (a b : Bar) : Prop := a.date ≤ b.date

instance : DecidableRel dateLE :=
  fun a b => inferInstanceAs (Decidable (a.date ≤ b.date))

instance : IsTotal Bar dateLE := ⟨fun a b => Int.le_total a.date b.date⟩

instance : IsTrans Bar dateLE := ⟨fun _ _ _ hab hbc => le_trans hab hbc⟩

/-- `df.sort_index()`: the bars sorted ascending (stably) by date. -/
def sortByDate (l : List Bar) : List Bar := List.insertionSort dateLE l

/-- The candidate loop of `get_prices` (`backtest.py` lines 29–37): a raised
exception makes `df = None`; a `None` or empty dataframe moves to the next
candidate; the first non-empty dataframe is returned sorted by date and
collapsed to its `Close` column (which is all a `Bar` carries). -/
def tryCandidates (download : String → FetchOutcome) :
    List String → Option (List Bar)
  | [] => none
  | t :: rest =>
      let df : Option (List Bar) :=
        match download t with
        | .fetchError => none
        | .data d => some d
      match df with
      | none => tryCandidates download rest
      | some d =>
          if d.isEmpty then tryCandidates download rest
          else some (sortByDate d)

/-- Embedding of `get_prices` (`backtest.py` lines 25–38;
`get_prices_for_symbol` with `get_prices_cached` in `streamlit_app.py`
lines 9–27 yields the same series): try `symbol + ".NS"`, `symbol + ".BO"`,
then the raw symbol, in that order. -/
def get_prices (download : String → FetchOutcome) (symbol : String) :
    Option (List Bar) :=
  tryCandidates download [symbol ++ ".NS", symbol ++ ".BO", symbol]

/-- The Price Series Provider as the spec words it: the first candidate
yielding a non-empty result set is accepted; a fetch error is treated as
absence.  Reference definition for the refinement comparison with
`get_prices`. -/
def specFirstNonEmpty (download : String → FetchOutcome) :
    List String → Option (List Bar)
  | [] => none
  | t :: rest =>
      match download t with
      | .data (b :: bs) => some (b :: bs)
      | _ => specFirstNonEmpty download rest

/-- A concrete download function for witnesses: the `.NS` variant errors,
the `.BO` variant has two unsorted bars, anything else errors. -/
def dlA : String → FetchOutcome :=
  fun t =>
    if t = "X.NS" then .fetchError
    else if t = "X.BO" then .data [⟨2, 5⟩, ⟨1, 4⟩]
    else .fetchError

/-- Round a rational to the nearest integer, ties to even (the rounding of
`"\x7b:.2f\x7d".format` on the underlying float). -/
def roundHalfEven (q : ℚ) : Int :=
  if q - ⌊q⌋ < 1 / 2 then ⌊q⌋
  else if 1 / 2 < q - ⌊q⌋ then ⌊q⌋ + 1
  else if ⌊q⌋ % 2 = 0 then ⌊q⌋ else ⌊q⌋ + 1

/-- Two-decimal digit block (`05`, `50`, …) for a value below 100. -/
def twoDigits (n : Nat) : String := (if n < 10 then "0" else "") ++ toString n

/-- `"\x7b:.2f\x7d".format(v)`: fixed two-decimal rendering. -/
def fmt2 (v : ℚ) : String :=
  (if roundHalfEven (v * 100) < 0 then "-" else "") ++
    toString ((roundHalfEven (v * 100)).natAbs / 100) ++ "." ++
    twoDigits ((roundHalfEven (v * 100)).natAbs % 100)

/-- The money/price column cell: 2-decimal string, empty when null. -/
def fmtOpt2 : Option ℚ → String
  | none => ""
  | some v => fmt2 v

/-- `fmt_pct` from `format_results` (`streamlit_app.py` lines 69–77) and
`format_csv` (`format_results.py` lines 17–30): null → empty string;
otherwise multiply by 100 when the magnitude is below 2, then render with a
`%` suffix. -/
def fmt_pct : Option ℚ → String
  | none => ""
  | some v => if |v| < 2 then fmt2 (v * 100) ++ "%" else fmt2 v ++ "%"

/-- The formatted columns produced by the display formatter. -/
structure FormattedRow where
  entry_price : String
  exit_price : String
  profit : String
  investment : String
  return_pct : String
  deriving DecidableEq

/-- Embedding of `format_results` (`streamlit_app.py` lines 59–79;
`format_csv` in `format_results.py` lines 5–36 applies the same per-column
transformations): prices, profit and investment become fixed 2-decimal
strings (empty for null), `return_pct` goes through `fmt_pct`. -/
def format_results (r : TradeResult) : FormattedRow :=
  { entry_price := fmtOpt2 r.entry_price
    exit_price := fmtOpt2 r.exit_price
    profit := fmtOpt2 r.profit
    investment := fmt2 r.investment
    return_pct := fmt_pct r.return_pct }

/-- A concrete result row used by the formatting witness. -/
def rowFmtA : TradeResult :=
  { symbol := "A", signal_date := 0, entry_date := some 0,
    entry_price := some (123 / 100), exit_date := some 1,
    exit_price := some (129 / 100), return_pct := some (1 / 20),
    profit := some 50, investment := 1000, note := "" }

/-- Reduction of `find_entry_exit` when no bar is on/after the signal date. -/
theorem find_entry_exit_eq_of_filter_nil {hist : List Bar} {signal_dt : Int}
    (days : Nat) (hfil : hist.filter (onOrAfter signal_dt) = []) :
    find_entry_exit hist signal_dt days = (none, none, none, none) := by
  unfold find_entry_exit
  rw [hfil]

/-- Reduction of `find_entry_exit` when the first on/after bar is `e`. -/
theorem find_entry_exit_eq_of_filter_cons {hist : List Bar} {signal_dt : Int}
    (days : Nat) {e : Bar} {rest : List Bar}
    (hfil : hist.filter (onOrAfter signal_dt) = e :: rest) :
    find_entry_exit hist signal_dt days =
      if h : hist.findIdx (sameDate e.date) + days < hist.length then
        (some e.date, some e.close,
          some (hist.get ⟨hist.findIdx (sameDate e.date) + days, h⟩).date,
          some (hist.get ⟨hist.findIdx (sameDate e.date) + days, h⟩).close)
      else (some e.date, some e.close, none, none) := by
  unfold find_entry_exit
  rw [hfil]

/-- The head of a filtered list is the first element satisfying the predicate. -/
theorem filter_head?_eq_find? (p : α → Bool) (l : List α) :
    (l.filter p).head? = l.find? p := by
  induction l with
  | nil => rfl
  | cons a t ih =>
      cases hp : p a <;> simp [List.filter_cons, List.find?_cons, hp, ih]

theorem find?_onOrAfter_mem {hist : List Bar} {signal_dt : Int} {e : Bar}
    (h : hist.find? (onOrAfter signal_dt) = some e) :
    e ∈ hist ∧ signal_dt ≤ e.date := by
  have hm := List.mem_of_find?_eq_some h
  have hp := List.find?_some h
  simp only [onOrAfter, decide_eq_true_eq] at hp
  exact ⟨hm, hp⟩

/-- C1: the trade resolver selects as entry the first bar whose date is on or
after the signal date (inclusive); if no such bar exists all four outputs are
null; if the signal date is on or before every bar of a non-empty series, the
entry is the first bar of the series. -/
theorem find_entry_exit_entry_rule (hist : List Bar) (signal_dt : Int) (days : Nat) :
    ((∀ b ∈ hist, ¬ signal_dt ≤ b.date) →
      find_entry_exit hist signal_dt days = (none, none, none, none))
    ∧ (∀ e, hist.find? (onOrAfter signal_dt) = some e →
        (find_entry_exit hist signal_dt days).1 = some e.date
        ∧ (find_entry_exit hist signal_dt days).2.1 = some e.close)
    ∧ (∀ b0 rest, hist = b0 :: rest → (∀ b ∈ hist, signal_dt ≤ b.date) →
        (find_entry_exit hist signal_dt days).1 = some b0.date
        ∧ (find_entry_exit hist signal_dt days).2.1 = some b0.close) := by
  refine ⟨?_, ?_, ?_⟩
  · intro hnone
    have hf : hist.filter (onOrAfter signal_dt) = [] := by
      rw [List.filter_eq_nil_iff]
      intro b hb
      simp [onOrAfter, hnone b hb]
    exact find_entry_exit_eq_of_filter_nil days hf
  · intro e he
    have hh : (hist.filter (onOrAfter signal_dt)).head? = some e := by
      rw [filter_head?_eq_find?]; exact he
    rcases hfil : hist.filter (onOrAfter signal_dt) with _ | ⟨x, rest⟩
    · rw [hfil] at hh; simp at hh
    · rw [hfil] at hh
      simp only [List.head?_cons, Option.some.injEq] at hh
      subst hh
      rw [find_entry_exit_eq_of_filter_cons days hfil]
      constructor <;> (split <;> rfl)
  · intro b0 rest hhist hall
    have hf : hist.filter (onOrAfter signal_dt) = hist := by
      rw [List.filter_eq_self]
      intro b hb
      simp [onOrAfter, hall b hb]
    rw [find_entry_exit_eq_of_filter_cons days (hf.trans hhist)]
    constructor <;> (split <;> rfl)

/-- Witness for C1 at a concrete series. -/
theorem find_entry_exit_entry_rule_witness :
    (find_entry_exit [⟨5, 100⟩, ⟨6, 101⟩] 4 1).1 = some 5
    ∧ (find_entry_exit [⟨5, 100⟩, ⟨6, 101⟩] 4 1).2.1 = some 100 :=
  (find_entry_exit_entry_rule [⟨5, 100⟩, ⟨6, 101⟩] 4 1).2.2 ⟨5, 100⟩ [⟨6, 101⟩]
    rfl (by decide)

/-- `get_loc` on the entry date returns the position of the first on/after bar:
bars strictly before it fail the date test because any bar sharing the entry
date would itself be on/after the signal. -/
theorem findIdx_sameDate_eq {hist : List Bar} {signal_dt : Int} {e : Bar}
    {rest : List Bar} (hfil : hist.filter (onOrAfter signal_dt) = e :: rest) :
    hist.findIdx (sameDate e.date) = hist.findIdx (onOrAfter signal_dt) := by
  induction hist generalizing rest with
  | nil => simp at hfil
  | cons a t ih =>
      rw [List.filter_cons] at hfil
      by_cases ha : onOrAfter signal_dt a = true
      · rw [if_pos ha] at hfil
        obtain ⟨rfl, -⟩ := List.cons.inj hfil
        have hs : sameDate a.date a = true := by simp [sameDate]
        simp [List.findIdx_cons, hs, ha]
      · rw [if_neg ha] at hfil
        have hmem : e ∈ t.filter (onOrAfter signal_dt) := by
          rw [hfil]; exact List.mem_cons_self e rest
        have hedate : signal_dt ≤ e.date := by
          have := (List.mem_filter.mp hmem).2
          simpa [onOrAfter] using this
        have hne : sameDate e.date a = false := by
          simp only [sameDate, decide_eq_false_iff_not]
          intro hda
          exact ha (by simp [onOrAfter, hda ▸ hedate])
        simp only [List.findIdx_cons, hne, ha, cond_false,
          Bool.false_eq_true, if_false]
        rw [ih hfil]

/-- C2 (amended): if an entry bar exists, its position is the index of the
first on/after bar; the exit bar is the bar `holding_period_days` positions
later in the series (a count of trading bars present in the series), and the
trade has an entry but no exit exactly when that position is at least the
series length (`exit_pos >= len(hist_idx)`), the entry fields still being
returned. -/
theorem find_entry_exit_exit_rule (hist : List Bar) (signal_dt : Int)
    (days : Nat) (e : Bar) (he : hist.find? (onOrAfter signal_dt) = some e) :
    (∀ h : hist.findIdx (onOrAfter signal_dt) + days < hist.length,
        (find_entry_exit hist signal_dt days).2.2.1 =
          some (hist.get ⟨hist.findIdx (onOrAfter signal_dt) + days, h⟩).date
        ∧ (find_entry_exit hist signal_dt days).2.2.2 =
          some (hist.get ⟨hist.findIdx (onOrAfter signal_dt) + days, h⟩).close)
    ∧ (hist.length ≤ hist.findIdx (onOrAfter signal_dt) + days →
        (find_entry_exit hist signal_dt days).1 = some e.date
        ∧ (find_entry_exit hist signal_dt days).2.1 = some e.close
        ∧ (find_entry_exit hist signal_dt days).2.2.1 = none
        ∧ (find_entry_exit hist signal_dt days).2.2.2 = none)
    ∧ ((find_entry_exit hist signal_dt days).2.2.1 = none ↔
        hist.length ≤ hist.findIdx (onOrAfter signal_dt) + days) := by
  have hh : (hist.filter (onOrAfter signal_dt)).head? = some e := by
    rw [filter_head?_eq_find?]; exact he
  rcases hfil : hist.filter (onOrAfter signal_dt) with _ | ⟨x, rest⟩
  · rw [hfil] at hh; simp at hh
  · rw [hfil] at hh
    simp only [List.head?_cons, Option.some.injEq] at hh
    subst hh
    rw [find_entry_exit_eq_of_filter_cons days hfil, findIdx_sameDate_eq hfil]
    refine ⟨?_, ?_, ?_⟩
    · intro h
      rw [dif_pos h]
      exact ⟨rfl, rfl⟩
    · intro h
      rw [dif_neg (by omega)]
      exact ⟨rfl, rfl, rfl, rfl⟩
    · by_cases h : hist.findIdx (onOrAfter signal_dt) + days < hist.length
      · rw [dif_pos h]
        simp
        omega
      · rw [dif_neg h]
        simp
        omega

/-- Witness for C2 at a concrete series: entry at index 0, exit two bars later. -/
theorem find_entry_exit_exit_rule_witness :
    (find_entry_exit [⟨0, 100⟩, ⟨1, 101⟩, ⟨3, 105⟩] 0 2).2.2.1 = some 3
    ∧ (find_entry_exit [⟨0, 100⟩, ⟨1, 101⟩, ⟨3, 105⟩] 0 2).2.2.2 = some 105 :=
  (find_entry_exit_exit_rule [⟨0, 100⟩, ⟨1, 101⟩, ⟨3, 105⟩] 0 2 ⟨0, 100⟩
    (by decide)).1 (by decide)

/-- Counterexample to C2 as stated: with a three-bar series, signal at the
first bar and a three-bar holding period, `entry_index + days` equals the
series length without exceeding it, yet the code returns an entry with no
exit (`exit_pos >= len(hist_idx)` uses `>=`, not `>`). -/
theorem find_entry_exit_exit_rule_counterexample :
    (find_entry_exit [⟨0, 1⟩, ⟨1, 1⟩, ⟨2, 1⟩] 0 3).1 = some 0
    ∧ (find_entry_exit [⟨0, 1⟩, ⟨1, 1⟩, ⟨2, 1⟩] 0 3).2.2.1 = none
    ∧ ¬ (([⟨0, 1⟩, ⟨1, 1⟩, ⟨2, 1⟩] : List Bar).findIdx (onOrAfter 0) + 3 >
          ([⟨0, 1⟩, ⟨1, 1⟩, ⟨2, 1⟩] : List Bar).length) := by
  decide

/-- The element at a successful `findIdx` position is the head of the filter. -/
theorem get_findIdx_eq_filter_head {p : α → Bool} {l : List α} {e : α}
    {rest : List α} (hfil : l.filter p = e :: rest) :
    ∃ h : l.findIdx p < l.length, l.get ⟨l.findIdx p, h⟩ = e := by
  induction l generalizing rest with
  | nil => simp at hfil
  | cons a t ih =>
      rw [List.filter_cons] at hfil
      by_cases hp : p a = true
      · rw [if_pos hp] at hfil
        obtain ⟨rfl, -⟩ := List.cons.inj hfil
        refine ⟨by simp [List.findIdx_cons, hp], ?_⟩
        simp [List.findIdx_cons, hp]
      · rw [if_neg hp] at hfil
        obtain ⟨h, hget⟩ := ih hfil
        have hp' : p a = false := by simpa using hp
        refine ⟨?_, ?_⟩
        · simp only [List.findIdx_cons, hp', cond_false, List.length_cons]
          omega
        · simpa [List.findIdx_cons, hp'] using hget

/-- C10: `find_entry_exit` never produces an exit without an entry; and on a
series with strictly increasing dates and a positive holding period, a
returned exit date is strictly later than the entry date, and the entry date
is on or after the signal date. -/
theorem find_entry_exit_invariants (hist : List Bar) (signal_dt : Int)
    (days : Nat) :
    (∀ xd, (find_entry_exit hist signal_dt days).2.2.1 = some xd →
      ∃ ed, (find_entry_exit hist signal_dt days).1 = some ed)
    ∧ (List.Pairwise (fun a b => a.date < b.date) hist → 1 ≤ days →
        ∀ ed xd, (find_entry_exit hist signal_dt days).1 = some ed →
          (find_entry_exit hist signal_dt days).2.2.1 = some xd →
          ed < xd ∧ signal_dt ≤ ed) := by
  rcases hfil : hist.filter (onOrAfter signal_dt) with _ | ⟨e, rest⟩
  · rw [find_entry_exit_eq_of_filter_nil days hfil]
    exact ⟨by simp, by simp⟩
  · rw [find_entry_exit_eq_of_filter_cons days hfil, findIdx_sameDate_eq hfil]
    have hedate : signal_dt ≤ e.date := by
      have hmem : e ∈ hist.filter (onOrAfter signal_dt) := by
        rw [hfil]; exact List.mem_cons_self e rest
      have := (List.mem_filter.mp hmem).2
      simpa [onOrAfter] using this
    obtain ⟨hk, hgete⟩ := get_findIdx_eq_filter_head hfil
    constructor
    · intro xd hxd
      by_cases h : hist.findIdx (onOrAfter signal_dt) + days < hist.length
      · rw [dif_pos h]
        exact ⟨e.date, rfl⟩
      · rw [dif_neg h] at hxd
        simp at hxd
    · intro hpw hdays ed xd hed hxd
      by_cases h : hist.findIdx (onOrAfter signal_dt) + days < hist.length
      · rw [dif_pos h] at hed hxd
        simp only [Option.some.injEq] at hed hxd
        subst hed
        subst hxd
        refine ⟨?_, hedate⟩
        have hlt : hist.findIdx (onOrAfter signal_dt) <
            hist.findIdx (onOrAfter signal_dt) + days := by omega
        have := (List.pairwise_iff_get.mp hpw)
          ⟨hist.findIdx (onOrAfter signal_dt), hk⟩
          ⟨hist.findIdx (onOrAfter signal_dt) + days, h⟩ hlt
        rw [hgete] at this
        exact this
      · rw [dif_neg h] at hxd
        simp at hxd

/-- Witness for C10 on a concrete strictly increasing two-bar series. -/
theorem find_entry_exit_invariants_witness : (0 : Int) < 1 ∧ (0 : Int) ≤ 0 :=
  (find_entry_exit_invariants [⟨0, 100⟩, ⟨1, 110⟩] 0 1).2 (by decide)
    (by decide) 0 1 (by decide) (by decide)

/-- `find_entry_exit` returns one of exactly three shapes: nothing, entry
only, or entry plus exit. -/
theorem find_entry_exit_shape (hist : List Bar) (signal_dt : Int) (days : Nat) :
    find_entry_exit hist signal_dt days = (none, none, none, none)
    ∨ (∃ d c, find_entry_exit hist signal_dt days = (some d, some c, none, none))
    ∨ (∃ d c d2 c2,
        find_entry_exit hist signal_dt days = (some d, some c, some d2, some c2)) := by
  rcases hfil : hist.filter (onOrAfter signal_dt) with _ | ⟨e, rest⟩
  · exact Or.inl (find_entry_exit_eq_of_filter_nil days hfil)
  · rw [find_entry_exit_eq_of_filter_cons days hfil]
    by_cases h : hist.findIdx (sameDate e.date) + days < hist.length
    · rw [dif_pos h]
      exact Or.inr (Or.inr ⟨_, _, _, _, rfl⟩)
    · rw [dif_neg h]
      exact Or.inr (Or.inl ⟨_, _, rfl⟩)

/-- C3: every `TradeResult` produced by the orchestrator's per-row body is in
exactly one of the four states: (a) no price data, (b) no entry, (c) no exit
(insufficient data), (d) fully resolved with empty note. -/
theorem processRow_states (fetch : String → Int → Int → Option (List Bar))
    (investment : ℚ) (days : Nat) (row : SignalRow) :
    (noPriceDataState (processRow fetch investment days row)
      ∧ ¬ noEntryState (processRow fetch investment days row)
      ∧ ¬ noExitState (processRow fetch investment days row)
      ∧ ¬ resolvedState (processRow fetch investment days row))
    ∨ (¬ noPriceDataState (processRow fetch investment days row)
      ∧ noEntryState (processRow fetch investment days row)
      ∧ ¬ noExitState (processRow fetch investment days row)
      ∧ ¬ resolvedState (processRow fetch investment days row))
    ∨ (¬ noPriceDataState (processRow fetch investment days row)
      ∧ ¬ noEntryState (processRow fetch investment days row)
      ∧ noExitState (processRow fetch investment days row)
      ∧ ¬ resolvedState (processRow fetch investment days row))
    ∨ (¬ noPriceDataState (processRow fetch investment days row)
      ∧ ¬ noEntryState (processRow fetch investment days row)
      ∧ ¬ noExitState (processRow fetch investment days row)
      ∧ resolvedState (processRow fetch investment days row)) := by
  rcases hfetch : fetch row.symbol (row.signal_date - 1)
      (row.signal_date + ((days : Int) + 3)) with _ | hist
  · left
    simp [processRow, hfetch, noPriceDataState, noEntryState, noExitState,
      resolvedState]
  · rcases find_entry_exit_shape hist row.signal_date days with
      hs | ⟨d, c, hs⟩ | ⟨d, c, d2, c2, hs⟩
    · right; left
      simp [processRow, hfetch, hs, noPriceDataState, noEntryState,
        noExitState, resolvedState]
    · right; right; left
      simp [processRow, hfetch, hs, noPriceDataState, noEntryState,
        noExitState, resolvedState]
    · right; right; right
      simp [processRow, hfetch, hs, noPriceDataState, noEntryState,
        noExitState, resolvedState]

/-- Witness for C3: concrete row landing in one of the four states. -/
theorem processRow_states_witness :
    noPriceDataState (processRow fetchNone 1000 5 rowA)
    ∨ noEntryState (processRow fetchNone 1000 5 rowA)
    ∨ noExitState (processRow fetchNone 1000 5 rowA)
    ∨ resolvedState (processRow fetchNone 1000 5 rowA) := by
  rcases processRow_states fetchNone 1000 5 rowA with h | h | h | h
  · exact Or.inl h.1
  · exact Or.inr (Or.inl h.2.1)
  · exact Or.inr (Or.inr (Or.inl h.2.2.1))
  · exact Or.inr (Or.inr (Or.inr h.2.2.2))

/-- C4: for every fully resolved row, `return_pct` is exactly
`(exit_price - entry_price) / entry_price` and `profit` is exactly
`return_pct * investment`; no rounding is applied (the equalities are exact
in `ℚ`). -/
theorem processRow_return_formula (fetch : String → Int → Int → Option (List Bar))
    (investment : ℚ) (days : Nat) (row : SignalRow) (ep xp : ℚ)
    (hep : (processRow fetch investment days row).entry_price = some ep)
    (hxp : (processRow fetch investment days row).exit_price = some xp) :
    (processRow fetch investment days row).return_pct = some ((xp - ep) / ep)
    ∧ (processRow fetch investment days row).profit =
        some ((xp - ep) / ep * investment) := by
  rcases hfetch : fetch row.symbol (row.signal_date - 1)
      (row.signal_date + ((days : Int) + 3)) with _ | hist
  · simp [processRow, hfetch] at hep
  · rcases find_entry_exit_shape hist row.signal_date days with
      hs | ⟨d, c, hs⟩ | ⟨d, c, d2, c2, hs⟩
    · simp [processRow, hfetch, hs] at hep
    · simp [processRow, hfetch, hs] at hxp
    · simp only [processRow, hfetch, hs] at hep hxp ⊢
      simp only [Option.some.injEq] at hep hxp
      subst hep
      subst hxp
      exact ⟨rfl, rfl⟩

/-- Witness for C4 on a concrete resolved trade. -/
theorem processRow_return_formula_witness :
    (processRow fetchTwoBars 1000 1 rowA).return_pct =
      some ((110 - 100) / 100)
    ∧ (processRow fetchTwoBars 1000 1 rowA).profit =
      some ((110 - 100) / 100 * 1000) :=
  processRow_return_formula fetchTwoBars 1000 1 rowA 100 110 (by decide)
    (by decide)

/-- C5: on a valid batch the orchestrator yields exactly one result per input
row, in input order; each output row is determined by its own input row alone,
so no per-row condition aborts the remaining rows. -/
theorem run_backtest_batch (fetch : String → Int → Int → Option (List Bar))
    (columns : List String) (sigs : List SignalRow) (investment : ℚ)
    (days : Nat) (out : List TradeResult)
    (h : run_backtest fetch columns sigs investment days = .ok out) :
    out.length = sigs.length
    ∧ ∀ i : Nat, out[i]? = (sigs[i]?).map (processRow fetch investment days) := by
  unfold run_backtest at h
  rcases hdet : detect_columns columns with ⟨s, d⟩
  rw [hdet] at h
  cases s <;> cases d <;> simp at h
  subst h
  exact ⟨by simp, fun i => by simp⟩

/-- Witness for C5 on a one-row batch with valid columns. -/
theorem run_backtest_batch_witness :
    ([processRow fetchNone 1000 5 rowA].length = [rowA].length) :=
  (run_backtest_batch fetchNone ["symbol", "date"] [rowA] 1000 5
    [processRow fetchNone 1000 5 rowA]
    (by
      have hdet : detect_columns ["symbol", "date"] =
          (some "symbol", some "date") := by decide
      unfold run_backtest
      rw [hdet]
      rfl)).1

/-- C8: the orchestrator consults the provider exactly on the inclusive
window from `signal_date - 1` day through `signal_date + days + 3` days — a
safety margin of 3 ≥ 3 calendar days: two fetch pipelines agreeing on that
window produce identical rows. -/
theorem processRow_fetch_window :
    ((3 : Int) ≥ 3)
    ∧ ∀ (f g : String → Int → Int → Option (List Bar)) (investment : ℚ)
        (days : Nat) (row : SignalRow),
        f row.symbol (row.signal_date - 1) (row.signal_date + ((days : Int) + 3))
          = g row.symbol (row.signal_date - 1) (row.signal_date + ((days : Int) + 3)) →
        processRow f investment days row = processRow g investment days row := by
  refine ⟨le_refl 3, ?_⟩
  intro f g investment days row h
  unfold processRow
  rw [h]

/-- Witness for C8: two distinct pipelines agreeing on the queried window. -/
theorem processRow_fetch_window_witness :
    processRow fetchNone 1000 5 rowA = processRow fetchStartSensitive 1000 5 rowA :=
  processRow_fetch_window.2 fetchNone fetchStartSensitive 1000 5 rowA (by decide)

/-- A successful `lookupCol` returns an actual column whose lowercasing is
the requested name. -/
theorem lookupCol_some_spec {columns : List String} {name c : String}
    (h : lookupCol columns name = some c) :
    c ∈ columns ∧ lowerStr c = name := by
  unfold lookupCol at h
  have hmem : c ∈ columns.filter (fun c => lowerStr c == name) :=
    List.mem_of_mem_getLast? (by simp [h])
  have hf := List.mem_filter.mp hmem
  exact ⟨hf.1, by simpa using hf.2⟩

/-- `lookupCol` misses exactly when no column lowercases to the name. -/
theorem lookupCol_eq_none_iff (columns : List String) (name : String) :
    lookupCol columns name = none ↔ ∀ c ∈ columns, lowerStr c ≠ name := by
  unfold lookupCol
  rw [List.getLast?_eq_none_iff, List.filter_eq_nil_iff]
  simp

/-- Soundness of alias scanning: a detected column is a real column whose
lowercasing is one of the scanned aliases. -/
theorem findSome?_lookup_sound (names : List String) (columns : List String)
    (c : String) (h : names.findSome? (lookupCol columns) = some c) :
    c ∈ columns ∧ lowerStr c ∈ names := by
  induction names with
  | nil => simp at h
  | cons n ns ih =>
      rcases hn : lookupCol columns n with _ | c0
      · rw [List.findSome?_cons] at h
        simp only [hn] at h
        have := ih h
        exact ⟨this.1, List.mem_cons_of_mem n this.2⟩
      · rw [List.findSome?_cons] at h
        simp only [hn, Option.some.injEq] at h
        subst h
        have := lookupCol_some_spec hn
        exact ⟨this.1, by simp [this.2]⟩

/-- Completeness of alias scanning: the scan succeeds exactly when some
column lowercases to one of the aliases. -/
theorem findSome?_lookup_isSome (names : List String) (columns : List String) :
    names.findSome? (lookupCol columns) ≠ none ↔
      ∃ c ∈ columns, lowerStr c ∈ names := by
  induction names with
  | nil => simp
  | cons n ns ih =>
      constructor
      · intro h
        rcases hv : (n :: ns).findSome? (lookupCol columns) with _ | c
        · exact absurd hv h
        · have := findSome?_lookup_sound (n :: ns) columns c hv
          exact ⟨c, this.1, this.2⟩
      · rintro ⟨c, hmem, hlow⟩
        rcases hn : lookupCol columns n with _ | c0
        · rw [List.findSome?_cons]
          simp only [hn]
          rcases List.mem_cons.mp hlow with h1 | h2
          · exfalso
            exact (lookupCol_eq_none_iff columns n).mp hn c hmem h1
          · exact ih.mpr ⟨c, hmem, h2⟩
        · rw [List.findSome?_cons]
          simp [hn]

/-- Scanning skips an alias no column matches. -/
theorem findSome?_lookup_skip (n : String) (ns : List String)
    (columns : List String) (h : ∀ c ∈ columns, lowerStr c ≠ n) :
    (n :: ns).findSome? (lookupCol columns) = ns.findSome? (lookupCol columns) := by
  rw [List.findSome?_cons]
  simp [(lookupCol_eq_none_iff columns n).mpr h]

/-- The first alias some column matches wins. -/
theorem findSome?_lookup_head (n : String) (ns : List String)
    (columns : List String) (h : ∃ c ∈ columns, lowerStr c = n) :
    ∀ c, (n :: ns).findSome? (lookupCol columns) = some c → lowerStr c = n := by
  intro c hc
  rcases hn : lookupCol columns n with _ | c0
  · obtain ⟨c1, hmem, hlow⟩ := h
    exact absurd hlow ((lookupCol_eq_none_iff columns n).mp hn c1 hmem)
  · rw [List.findSome?_cons] at hc
    simp only [hn, Option.some.injEq] at hc
    subst hc
    exact (lookupCol_some_spec hn).2

/-- C7: column detection matches names case-insensitively — the symbol
column is the first of `symbol`, `stock`, `ticker` present, the date column
the first of `date`, `signal_date` — and a missing column makes the whole
run fail with the hard validation error before any row is processed. -/
theorem detect_columns_rule (columns : List String) :
    (((detect_columns columns).1 = none ∨ (detect_columns columns).2 = none) →
      ∀ (fetch : String → Int → Int → Option (List Bar))
        (sigs : List SignalRow) (investment : ℚ) (days : Nat),
        run_backtest fetch columns sigs investment days =
          .error "Could not detect symbol and date columns. Expected columns like \"symbol\" and \"date\"")
    ∧ (∀ c, (detect_columns columns).1 = some c →
        c ∈ columns ∧ lowerStr c ∈ (["symbol", "stock", "ticker"] : List String))
    ∧ (∀ c, (detect_columns columns).2 = some c →
        c ∈ columns ∧ lowerStr c ∈ (["date", "signal_date"] : List String))
    ∧ ((detect_columns columns).1 ≠ none ↔
        ∃ c ∈ columns, lowerStr c ∈ (["symbol", "stock", "ticker"] : List String))
    ∧ ((detect_columns columns).2 ≠ none ↔
        ∃ c ∈ columns, lowerStr c ∈ (["date", "signal_date"] : List String))
    ∧ ((∃ c ∈ columns, lowerStr c = "symbol") →
        ∀ c, (detect_columns columns).1 = some c → lowerStr c = "symbol")
    ∧ ((∀ c ∈ columns, lowerStr c ≠ "symbol") → (∃ c ∈ columns, lowerStr c = "stock") →
        ∀ c, (detect_columns columns).1 = some c → lowerStr c = "stock")
    ∧ ((∀ c ∈ columns, lowerStr c ≠ "symbol") → (∀ c ∈ columns, lowerStr c ≠ "stock") →
        (∃ c ∈ columns, lowerStr c = "ticker") →
        ∀ c, (detect_columns columns).1 = some c → lowerStr c = "ticker")
    ∧ ((∃ c ∈ columns, lowerStr c = "date") →
        ∀ c, (detect_columns columns).2 = some c → lowerStr c = "date")
    ∧ ((∀ c ∈ columns, lowerStr c ≠ "date") → (∃ c ∈ columns, lowerStr c = "signal_date") →
        ∀ c, (detect_columns columns).2 = some c → lowerStr c = "signal_date") := by
  refine ⟨?_, ?_, ?_, ?_, ?_, ?_, ?_, ?_, ?_, ?_⟩
  · intro hnone fetch sigs investment days
    unfold run_backtest
    rcases hdet : detect_columns columns with ⟨s, d⟩
    rw [hdet] at hnone
    simp only at hnone
    cases s <;> cases d
    · rfl
    · rfl
    · rfl
    · rcases hnone with h | h <;> exact absurd h (by simp)
  · exact fun c hc => findSome?_lookup_sound _ columns c hc
  · exact fun c hc => findSome?_lookup_sound _ columns c hc
  · exact findSome?_lookup_isSome _ columns
  · exact findSome?_lookup_isSome _ columns
  · exact fun h => findSome?_lookup_head "symbol" _ columns h
  · intro hno hyes c hc
    unfold detect_columns at hc
    rw [findSome?_lookup_skip "symbol" _ columns hno] at hc
    exact findSome?_lookup_head "stock" _ columns hyes c hc
  · intro hno1 hno2 hyes c hc
    unfold detect_columns at hc
    rw [findSome?_lookup_skip "symbol" _ columns hno1,
      findSome?_lookup_skip "stock" _ columns hno2] at hc
    exact findSome?_lookup_head "ticker" _ columns hyes c hc
  · exact fun h => findSome?_lookup_head "date" _ columns h
  · intro hno hyes c hc
    unfold detect_columns at hc
    rw [findSome?_lookup_skip "date" _ columns hno] at hc
    exact findSome?_lookup_head "signal_date" _ columns hyes c hc

/-- Witness for C7: a batch whose columns cannot be detected fails hard. -/
theorem detect_columns_rule_witness :
    run_backtest fetchNone ["foo"] [rowA] 1000 5 =
      .error "Could not detect symbol and date columns. Expected columns like \"symbol\" and \"date\"" :=
  (detect_columns_rule ["foo"]).1 (by decide) fetchNone [rowA] 1000 5

/-- The candidate loop computes the spec's first-non-empty rule, sorted. -/
theorem tryCandidates_eq_spec (download : String → FetchOutcome)
    (ts : List String) :
    tryCandidates download ts = (specFirstNonEmpty download ts).map sortByDate := by
  induction ts with
  | nil => rfl
  | cons t rest ih =>
      cases hd : download t with
      | fetchError => simp [tryCandidates, specFirstNonEmpty, hd, ih]
      | data d =>
          cases d with
          | nil => simp [tryCandidates, specFirstNonEmpty, hd, ih]
          | cons b bs => simp [tryCandidates, specFirstNonEmpty, hd]

/-- Replacing an erroring candidate by an empty result set changes nothing. -/
theorem tryCandidates_error_as_empty (download : String → FetchOutcome)
    (t : String) (ht : download t = .fetchError) (ts : List String) :
    tryCandidates download ts =
      tryCandidates (fun u => if u = t then .data [] else download u) ts := by
  induction ts with
  | nil => rfl
  | cons u rest ih =>
      by_cases hu : u = t
      · subst hu
        simp [tryCandidates, ht, ih]
      · cases hd : download u with
        | fetchError => simp [tryCandidates, hd, hu, ih]
        | data d =>
            cases d with
            | nil => simp [tryCandidates, hd, hu, ih]
            | cons b bs => simp [tryCandidates, hd, hu]

/-- C6: the provider tries `symbol+".NS"`, `symbol+".BO"`, then the raw
symbol in that fixed order; the first candidate yielding a non-empty result
is returned sorted ascending by date; a fetch error behaves exactly like an
empty result (move on, never fatal); when no candidate yields data the
provider returns `none`. -/
theorem get_prices_policy (download : String → FetchOutcome) (symbol : String) :
    get_prices download symbol =
      (specFirstNonEmpty download
        [symbol ++ ".NS", symbol ++ ".BO", symbol]).map sortByDate
    ∧ (∀ l, get_prices download symbol = some l → List.Sorted dateLE l)
    ∧ (∀ t, download t = FetchOutcome.fetchError →
        get_prices download symbol =
          get_prices
            (fun u => if u = t then FetchOutcome.data [] else download u)
            symbol)
    ∧ ((∀ t ∈ [symbol ++ ".NS", symbol ++ ".BO", symbol],
          ∀ d, download t = FetchOutcome.data d → d = []) →
        get_prices download symbol = none) := by
  have hnone : ∀ ts : List String,
      (∀ t ∈ ts, ∀ d, download t = FetchOutcome.data d → d = []) →
      specFirstNonEmpty download ts = none := by
    intro ts
    induction ts with
    | nil => intro _; rfl
    | cons t rest ih =>
        intro h
        cases hd : download t with
        | fetchError =>
            simp only [specFirstNonEmpty, hd]
            exact ih fun u hu => h u (List.mem_cons_of_mem t hu)
        | data d =>
            cases d with
            | nil =>
                simp only [specFirstNonEmpty, hd]
                exact ih fun u hu => h u (List.mem_cons_of_mem t hu)
            | cons b bs =>
                exact absurd (h t (List.mem_cons_self t rest) (b :: bs) hd)
                  (by simp)
  refine ⟨tryCandidates_eq_spec download _, ?_, ?_, ?_⟩
  · intro l hl
    rw [get_prices, tryCandidates_eq_spec] at hl
    rcases hspec : specFirstNonEmpty download
        [symbol ++ ".NS", symbol ++ ".BO", symbol] with _ | d
    · rw [hspec] at hl
      simp at hl
    · rw [hspec] at hl
      simp only [Option.map_some', Option.some.injEq] at hl
      subst hl
      exact List.sorted_insertionSort dateLE d
  · intro t ht
    exact tryCandidates_error_as_empty download t ht _
  · intro h
    rw [get_prices, tryCandidates_eq_spec, hnone _ h]
    rfl

/-- Witness for C6: the `.NS` candidate errors, the `.BO` data comes back
sorted, and turning the error into an empty frame changes nothing. -/
theorem get_prices_policy_witness :
    List.Sorted dateLE [⟨1, 4⟩, ⟨2, 5⟩]
    ∧ get_prices dlA "X" =
        get_prices
          (fun u => if u = "X.NS" then FetchOutcome.data [] else dlA u) "X" :=
  ⟨(get_prices_policy dlA "X").2.1 [⟨1, 4⟩, ⟨2, 5⟩] (by decide),
    (get_prices_policy dlA "X").2.2.1 "X.NS" (by decide)⟩

/-- The two-digit block really has two characters. -/
theorem twoDigits_length : ∀ m : Nat, m < 100 → (twoDigits m).length = 2 := by
  decide

/-- C9: the display formatter renders prices, profit and investment as fixed
2-decimal strings (empty when null) and renders `return_pct` with the
magnitude heuristic: a non-null value of magnitude below 2 is multiplied by
100 before the `%` rendering, otherwise it is rendered as-is; every fixed
rendering has exactly two digits after the decimal point. -/
theorem format_results_rule (r : TradeResult) :
    ((r.entry_price = none → (format_results r).entry_price = "")
      ∧ ∀ v, r.entry_price = some v → (format_results r).entry_price = fmt2 v)
    ∧ ((r.exit_price = none → (format_results r).exit_price = "")
      ∧ ∀ v, r.exit_price = some v → (format_results r).exit_price = fmt2 v)
    ∧ ((r.profit = none → (format_results r).profit = "")
      ∧ ∀ v, r.profit = some v → (format_results r).profit = fmt2 v)
    ∧ (format_results r).investment = fmt2 r.investment
    ∧ ((r.return_pct = none → (format_results r).return_pct = "")
      ∧ ∀ v, r.return_pct = some v →
          (|v| < 2 → (format_results r).return_pct = fmt2 (v * 100) ++ "%")
          ∧ (¬ |v| < 2 → (format_results r).return_pct = fmt2 v ++ "%"))
    ∧ ∀ v : ℚ, ∃ a b, fmt2 v = a ++ "." ++ b ∧ b.length = 2 := by
  refine ⟨⟨?_, ?_⟩, ⟨?_, ?_⟩, ⟨?_, ?_⟩, rfl, ⟨?_, ?_⟩, ?_⟩
  · intro h; simp [format_results, fmtOpt2, h]
  · intro v hv; simp [format_results, fmtOpt2, hv]
  · intro h; simp [format_results, fmtOpt2, h]
  · intro v hv; simp [format_results, fmtOpt2, hv]
  · intro h; simp [format_results, fmtOpt2, h]
  · intro v hv; simp [format_results, fmtOpt2, hv]
  · intro h; simp [format_results, fmt_pct, h]
  · intro v hv
    constructor <;> intro hm <;> simp [format_results, fmt_pct, hv, hm]
  · intro v
    refine ⟨(if roundHalfEven (v * 100) < 0 then "-" else "") ++
        toString ((roundHalfEven (v * 100)).natAbs / 100),
      twoDigits ((roundHalfEven (v * 100)).natAbs % 100), rfl, ?_⟩
    exact twoDigits_length _ (Nat.mod_lt _ (by norm_num))

/-- Witness for C9 on a concrete resolved row: +5% renders via the fraction
branch of the heuristic and the entry price renders with two decimals. -/
theorem format_results_rule_witness :
    (format_results rowFmtA).return_pct = fmt2 ((1 / 20 : ℚ) * 100) ++ "%"
    ∧ (format_results rowFmtA).entry_price = fmt2 (123 / 100) := by
  obtain ⟨hE, hX, hP, hI, hR, hF⟩ := format_results_rule rowFmtA
  refine ⟨(hR.2 (1 / 20) rfl).1 ?_, hE.2 (123 / 100) rfl⟩
  rw [abs_of_nonneg (show (0 : ℚ) ≤ 1 / 20 by norm_num)]
  norm_num
